import Mathlib

/-!
Shallow embedding of the `process-map` React component
(`src/components/process-map/process-map.tsx`, `custom-nodes.tsx`,
`custom-edge.tsx`).  JavaScript numbers are modelled as rationals (`ℚ`).
For most of the component's arithmetic (comparisons, `Math.max`/`Math.min`
clamps, the dyadic constants) this ideal arithmetic agrees with the
engine's IEEE-754 binary64 arithmetic; where a property depends on
binary64 rounding itself, the rounding is modelled explicitly
(`roundDouble` and the `fp` operations below) so that the ideal and the
rounded computations can be compared.  JavaScript
`Record<string, T>` objects are modelled as functions `String → Option T`
(insertion-order key iteration is made explicit where the source iterates
keys).  A JavaScript runtime error (property access on `undefined`) is
modelled by `Option`: the layout function returns `none` exactly when the
source would throw.
-/

namespace ProcessMap

/-- A `{ width, height }` size record (`nodeSizeMultipliers` entries,
`nodeSizeMap` entries, `data.sizeMultiplier`). -/
structure Size where
  width : ℚ
  height : ℚ
deriving DecidableEq

/-- A `{ x, y }` position record. -/
structure Pos where
  x : ℚ
  y : ℚ
deriving DecidableEq

/-- The `data` object carried by a flow node.  `sizeMultiplier` is the one
field the layout function writes; every other property of the spread
`{ ...node.data }` is modelled by the opaque association list `rest`. -/
structure NodeData where
  sizeMultiplier : Option Size
  rest : List (String × String)
deriving DecidableEq

/-- A React-Flow node record as consumed by `layoutNodesManually`.
`width`/`height` are `none` when `Number.isFinite(node.width)` is false
(absent or non-finite); remaining properties of the spread `{ ...node }`
are modelled by `rest`. -/
structure FlowNode where
  id : String
  type : String
  width : Option ℚ
  height : Option ℚ
  position : Pos
  targetPosition : String
  sourcePosition : String
  data : NodeData
  rest : List (String × String)
deriving DecidableEq

/-- A React-Flow edge record.  `layoutNodesManually` never inspects edges,
so only identity-relevant fields are named; the remainder is `rest`. -/
structure FlowEdge where
  id : String
  source : String
  target : String
  rest : List (String × String)
deriving DecidableEq

/-- `ProcessPhase` from `types/process-map`: id, label, width (relative
weight), color. -/
structure ProcessPhase where
  id : String
  label : String
  width : ℚ
  color : String
deriving DecidableEq

/-- `ProcessMapItem` from `types/process-map`. -/
structure ProcessMapItem where
  id : String
  title : String
  description : Option String
  category : String
  phaseId : String
  isActive : Bool
deriving DecidableEq

/-! ### Search filtering (`filteredItems` memo, process-map.tsx lines 234-241) -/

/-- `String.prototype.toLowerCase`, character by character (ASCII case
mapping, which is all the component's data uses). -/
def jsToLower (s : String) : String := ⟨s.data.map Char.toLower⟩

/-- Whether `needle` matches at the head of `hay`. -/
def matchAt : List Char → List Char → Bool
  | [], _ => true
  | _ :: _, [] => false
  | a :: as, b :: bs => a == b && matchAt as bs

/-- `String.prototype.includes` on character lists: `needle` occurs
somewhere in `hay`. -/
def includesFrom (needle : List Char) : List Char → Bool
  | [] => matchAt needle []
  | c :: rest => matchAt needle (c :: rest) || includesFrom needle rest

/-- `hay.includes(needle)` for strings. -/
def strIncludes (hay needle : String) : Bool := includesFrom needle.data hay.data

/-- The predicate of `items.filter(...)` in the `filteredItems` memo:
`item.title.toLowerCase().includes(searchTerm.toLowerCase()) ||
 item.description?.toLowerCase().includes(searchTerm.toLowerCase())`. -/
def matchesSearch (searchTerm : String) (item : ProcessMapItem) : Bool :=
  strIncludes (jsToLower item.title) (jsToLower searchTerm) ||
    (match item.description with
     | some d => strIncludes (jsToLower d) (jsToLower searchTerm)
     | none => false)

/-- `filteredItems`: `if (!searchTerm) return items; return items.filter(...)`
(the empty string is the falsy case). -/
def filteredItems (items : List ProcessMapItem) (searchTerm : String) :
    List ProcessMapItem :=
  if searchTerm = "" then items
  else items.filter (fun item => matchesSearch searchTerm item)

/-! ### Grouping by phase (`itemsByPhase` memo, process-map.tsx lines 244-269) -/

/-- `itemsByPhase`: builds `grouped` as an object keyed by phase id
(initialised to `[]` per phase), then pushes each filtered item onto
`grouped[item.phaseId]` when that key exists. -/
def itemsByPhase (phases : List ProcessPhase) (items : List ProcessMapItem)
    (searchTerm : String) : String → Option (List ProcessMapItem) :=
  let grouped0 : String → Option (List ProcessMapItem) :=
    phases.foldl
      (fun g phase => fun k => if k = phase.id then some [] else g k)
      (fun _ => none)
  (filteredItems items searchTerm).foldl
    (fun g item =>
      match g item.phaseId with
      | some l => fun k => if k = item.phaseId then some (l ++ [item]) else g k
      | none => g)
    grouped0

/-! ### Phase width percentages (process-map.tsx lines 407-416) -/

/-- `totalWidth`: `phases.reduce((sum, phase) => sum + phase.width, 0)`. -/
def totalWidth (phases : List ProcessPhase) : ℚ :=
  phases.foldl (fun sum phase => sum + phase.width) 0

/-- `getPhaseWidthPercentage`: `(phase.width / totalWidth) * 100`, in
exact rational arithmetic — the idealisation of the program's binary64
arithmetic.  `getPhaseWidthPercentageFP` below models the same expression
with each operation rounded as the engine rounds it. -/
def getPhaseWidthPercentage (phases : List ProcessPhase)
    (phase : ProcessPhase) : ℚ :=
  phase.width / totalWidth phases * 100

/-! ### Item click wiring (`handleItemClick`, process-map.tsx lines 339-349) -/

/-- An observable callback invocation made by `handleItemClick`. -/
inductive CallbackCall where
  | itemClick (item : ProcessMapItem)
  | itemSelect (itemId : Option String)
deriving DecidableEq

/-- `handleItemClick`: invokes `onItemClick(item)` when provided, then
`onItemSelect(item.id)` when provided.  The two booleans record whether
each optional callback prop was supplied; the result is the ordered trace
of invocations. -/
def handleItemClick (onItemClick onItemSelect : Bool)
    (item : ProcessMapItem) : List CallbackCall :=
  (if onItemClick then [CallbackCall.itemClick item] else []) ++
    (if onItemSelect then [CallbackCall.itemSelect (some item.id)] else [])

/-! ### Resize debouncing (ResizeObserver effect, process-map.tsx lines 309-337) -/

/-- The `dimensions` state object. -/
structure Dimensions where
  width : ℚ
  height : ℚ
deriving DecidableEq

/-- The `setDimensions` updater: builds `newDims = { width, height: height / 2 }`
and returns it only when it differs from `prev`, otherwise keeps `prev`. -/
def updateDimensions (prev : Dimensions) (w h : ℚ) : Dimensions :=
  let newDims : Dimensions := ⟨w, h / 2⟩
  if prev.width ≠ newDims.width ∨ prev.height ≠ newDims.height then newDims
  else prev

/-- The debounce delay passed to `setTimeout` (500 ms). -/
def debounceDelay : Nat := 500

/-- State of the resize-debounce effect: the pending timer (fire time plus
the width/height captured when the observer fired) and the stored
`dimensions` state. -/
structure DebounceState where
  timer : Option (Nat × ℚ × ℚ)
  dims : Dimensions
deriving DecidableEq

/-- Events of the resize effect: a ResizeObserver notification at time `t`
reading bounding-rect `w`/`h` (which does `clearTimeout` then `setTimeout`),
and the timer callback firing at time `t`. -/
inductive ResizeEvent where
  | notify (t : Nat) (w h : ℚ)
  | fire (t : Nat)
deriving DecidableEq

/-- One step of the resize-debounce state machine.  A notification cancels
any pending timeout and schedules a new one `debounceDelay` later; the
timer firing at its scheduled time applies `updateDimensions` with the
captured width/height. -/
def stepResize (s : DebounceState) : ResizeEvent → DebounceState
  | ResizeEvent.notify t w h => { s with timer := some (t + debounceDelay, w, h) }
  | ResizeEvent.fire t =>
    match s.timer with
    | some (tf, w, h) =>
      if t = tf then { timer := none, dims := updateDimensions s.dims w h }
      else s
    | none => s

/-! ### Manual layout (`layoutNodesManually`, process-map.tsx lines 32-197)

The source computes everything inside one function body; the `const`
bindings are lifted to named definitions here, each carrying the
`isWorkflowList` flag (written `iwl`) it closes over. -/

/-- `defaultNodeWidth = isWorkflowList ? 140 : 200`. -/
def defaultNodeWidth (iwl : Bool) : ℚ := if iwl then 140 else 200

/-- `defaultNodeHeight = isWorkflowList ? 30 : 80`. -/
def defaultNodeHeight (iwl : Bool) : ℚ := if iwl then 30 else 80

/-- `phaseSpacing = 2`. -/
def phaseSpacing : ℚ := 2

/-- `squareSide = isWorkflowList ? 100 : 140`. -/
def squareSideOf (iwl : Bool) : ℚ := if iwl then 100 else 140

/-- A record with the four phase keys (used for both the ratio record and
the derived width record). -/
structure Phase4 where
  phase1 : ℚ
  phase2 : ℚ
  phase3 : ℚ
  phase4 : ℚ
deriving DecidableEq

/-- `phaseWidthRatios = { phase1: 0.21875, phase2: 0.234375, phase3:
0.34375, phase4: 0.203125 }`. -/
def phaseWidthRatios : Phase4 := ⟨0.21875, 0.234375, 0.34375, 0.203125⟩

/-- `nodeMultipliers` (percent multipliers keyed by node id). -/
def nodeMultipliers (iwl : Bool) (id : String) : Option ℚ :=
  if id = "req" then some 100
  else if id = "eval" then some (if iwl then 99 else 100)
  else if id = "prov" then some (if iwl then 90 else 93)
  else if id = "reeval" then some (if iwl then 113 else 114)
  else if id = "decide" then some (if iwl then 113 else 114)
  else if id = "end" then some (if iwl then 99 else 100)
  else none

/-- `nodeSizeMultipliers` (width/height multipliers keyed by node id). -/
def nodeSizeMultipliers (id : String) : Option Size :=
  if id = "req" then some ⟨0.8, 0.4⟩
  else if id = "eval" then some ⟨0.8, 0.4⟩
  else if id = "prov" then some ⟨0.8, 0.4⟩
  else if id = "reeval" then some ⟨0.8, 0.4⟩
  else if id = "decide" then some ⟨0.6, 0.6⟩
  else if id = "end" then some ⟨0.8, 0.4⟩
  else none

/-- The multiplier chosen at lines 80-82 (and again at lines 188-191):
`isWorkflowList ? nodeSizeMultipliers[node.id] ?? { width: 0.7, height: 0.7 }
 : { width: 1, height: 1 }`. -/
def layoutNodeMultiplier (iwl : Bool) (id : String) : Size :=
  if iwl then (nodeSizeMultipliers id).getD ⟨0.7, 0.7⟩ else ⟨1, 1⟩

/-- `nodeSizeMap`, built by the `nodes.forEach` loop: per node id, the raw
width/height (argument value when finite, else the default) times the
chosen multiplier.  A later node with the same id overwrites an earlier
one, as JavaScript assignment does. -/
def nodeSizeMap (iwl : Bool) (nodes : List FlowNode) : String → Option Size :=
  nodes.foldl
    (fun m node =>
      let rawWidth := node.width.getD (defaultNodeWidth iwl)
      let rawHeight := node.height.getD (defaultNodeHeight iwl)
      let multipliers := layoutNodeMultiplier iwl node.id
      fun k =>
        if k = node.id then
          some ⟨rawWidth * multipliers.width, rawHeight * multipliers.height⟩
        else m k)
    (fun _ => none)

/-- `phaseWidths`: `usableWidth * phaseWidthRatios.phaseN` (with
`usableWidth = viewportWidth`), in exact rational arithmetic — the
idealisation of the program's binary64 products.  `phaseWidthsFP` below
models the same products with binary64 rounding. -/
def phaseWidthsOf (w : ℚ) : Phase4 :=
  ⟨w * phaseWidthRatios.phase1, w * phaseWidthRatios.phase2,
   w * phaseWidthRatios.phase3, w * phaseWidthRatios.phase4⟩

/-- `phase1Start = 0`. -/
def phase1StartOf (_w : ℚ) : ℚ := 0

/-- `phase2Start = phase1Start + phaseWidths.phase1`. -/
def phase2StartOf (w : ℚ) : ℚ := phase1StartOf w + (phaseWidthsOf w).phase1

/-- `phase3Start = phase2Start + phaseWidths.phase2`. -/
def phase3StartOf (w : ℚ) : ℚ := phase2StartOf w + (phaseWidthsOf w).phase2

/-- `phase4Start = phase3Start + phaseWidths.phase3`. -/
def phase4StartOf (w : ℚ) : ℚ := phase3StartOf w + (phaseWidthsOf w).phase3

/-- One entry of the `phaseBoundaries` array. -/
structure PhaseBoundary where
  id : String
  start : ℚ
  width : ℚ
deriving DecidableEq

/-- The `phaseBoundaries` array (lines 104-109). -/
def phaseBoundariesOf (w : ℚ) : List PhaseBoundary :=
  [⟨"phase1", phase1StartOf w, (phaseWidthsOf w).phase1⟩,
   ⟨"phase2", phase2StartOf w, (phaseWidthsOf w).phase2⟩,
   ⟨"phase3", phase3StartOf w, (phaseWidthsOf w).phase3⟩,
   ⟨"phase4", phase4StartOf w, (phaseWidthsOf w).phase4⟩]

/-- The `positions` record (lines 111-164), keyed by the six hardcoded node
ids.  Takes the `nodeSizeMap` entries the source reads directly (`req`,
`eval`, `reeval`, `decide`, `end` — reading any of these off a missing node
would throw in JavaScript, which the caller models with `Option`). -/
def positionsOf (iwl : Bool) (w : ℚ)
    (reqS evalS reevalS decideS endS : Size) : String → Option Pos :=
  let squareSide := squareSideOf iwl
  let pw := phaseWidthsOf w
  let reqX :=
    (phase1StartOf w + (pw.phase1 - reqS.width) / 2) *
      ((nodeMultipliers iwl "req").getD 100) / 100
  let evalX :=
    (phase2StartOf w + (pw.phase2 - evalS.width) / 2) *
      ((nodeMultipliers iwl "eval").getD 100) / 100
  let phase3Center := phase3StartOf w + pw.phase3 / 2
  let loopWidth := squareSide + phaseSpacing + reevalS.width
  let provX :=
    (phase3Center - loopWidth / 2) * ((nodeMultipliers iwl "prov").getD 100) / 100
  let sharedCenterX := phase3Center * ((nodeMultipliers iwl "reeval").getD 100) / 100
  let reevalX := sharedCenterX - reevalS.width / 2
  let decideX := sharedCenterX - decideS.width / 2
  let endX :=
    min
      ((phase4StartOf w + (pw.phase4 - endS.width) / 2) *
        ((nodeMultipliers iwl "end").getD 100) / 100)
      (w - endS.width)
  let endY := squareSide + (decideS.height - endS.height) / 2
  fun k =>
    if k = "req" then some ⟨max reqX 0, 0⟩
    else if k = "eval" then some ⟨max evalX (phase2StartOf w), 0⟩
    else if k = "prov" then some ⟨provX, 0⟩
    else if k = "reeval" then some ⟨reevalX, 0⟩
    else if k = "decide" then some ⟨decideX, squareSide⟩
    else if k = "end" then some ⟨endX, endY⟩
    else none

/-- Key iteration order of the `positions` record (its insertion order,
which is what `for (const nodeId in positions)` visits). -/
def positionKeys : List String := ["req", "eval", "prov", "reeval", "decide", "end"]

/-- The `maxBottom` loop (lines 167-172): fold `max` of `y + height` over
the `positions` keys, with `nodeSizeMap[nodeId]?.height ?? defaultNodeHeight`
for the height. -/
def maxBottomOf (positions : String → Option Pos) (sm : String → Option Size)
    (dH : ℚ) : ℚ :=
  positionKeys.foldl
    (fun acc k =>
      match positions k with
      | some p => max acc (p.y + ((sm k).map Size.height).getD dH)
      | none => acc)
    0

/-- `verticalOffset = Math.max((viewportHeight - maxBottom) / 2, 0)`. -/
def verticalOffsetOf (viewportHeight maxBottom : ℚ) : ℚ :=
  max ((viewportHeight - maxBottom) / 2) 0

/-- The `nodes.map` body (lines 176-194): spread the node, force
`targetPosition`/`sourcePosition`, set the position from `positions` (with
`{ x: 0, y: 0 }` fallback, a `+2` x-nudge for `decide` in workflow-list
view, and the vertical offset added to y), and overwrite
`data.sizeMultiplier`. -/
def layoutedNode (iwl : Bool) (positions : String → Option Pos)
    (verticalOffset : ℚ) (node : FlowNode) : FlowNode :=
  let pos := (positions node.id).getD ⟨0, 0⟩
  { node with
    targetPosition := "top"
    sourcePosition := "bottom"
    position :=
      ⟨if iwl && (node.id == "decide") then pos.x + 2 else pos.x,
       pos.y + verticalOffset⟩
    data := { node.data with
      sizeMultiplier := some (layoutNodeMultiplier iwl node.id) } }

/-- The `{ nodes, edges, phaseBoundaries }` return value. -/
structure LayoutResult where
  nodes : List FlowNode
  edges : List FlowEdge
  phaseBoundaries : List PhaseBoundary
deriving DecidableEq

/-- `layoutNodesManually`.  Returns `none` exactly when the source would
throw a `TypeError`: it reads `.width`/`.height` off `nodeSizeMap["req"]`,
`["eval"]`, `["reeval"]`, `["decide"]` and `["end"]`, which are `undefined`
when no input node carries that id. -/
def layoutNodesManually (nodes : List FlowNode) (edges : List FlowEdge)
    (viewportWidth viewportHeight : ℚ) (expandedView : String) :
    Option LayoutResult :=
  let iwl := expandedView == "workflow-list"
  let sm := nodeSizeMap iwl nodes
  match sm "req", sm "eval", sm "reeval", sm "decide", sm "end" with
  | some reqS, some evalS, some reevalS, some decideS, some endS =>
    let positions := positionsOf iwl viewportWidth reqS evalS reevalS decideS endS
    let maxBottom := maxBottomOf positions sm (defaultNodeHeight iwl)
    let verticalOffset := verticalOffsetOf viewportHeight maxBottom
    some ⟨nodes.map (layoutedNode iwl positions verticalOffset), edges,
          phaseBoundariesOf viewportWidth⟩
  | _, _, _, _, _ => none

/-! ### Custom node sizing (`CustomNode`, custom-nodes.tsx) -/

/-- `baseWidths = { process: 176, startEnd: 112 }`. -/
def baseWidths (type : String) : Option ℚ :=
  if type = "process" then some 176
  else if type = "startEnd" then some 112
  else none

/-- `baseHeights = { process: 64, startEnd: 64 }`. -/
def baseHeights (type : String) : Option ℚ :=
  if type = "process" then some 64
  else if type = "startEnd" then some 64
  else none

/-- The effective width/height multipliers `CustomNode` applies to its base
size: for `decision` nodes the raw `data.sizeMultiplier` (defaulting to 1);
for `process`/`startEnd` the dampened `1 + (m - 1) * 0.5`; for any other
type the raw multiplier. -/
def customNodeEffectiveMultipliers (type : String)
    (sizeMultiplier : Option Size) : Size :=
  let widthMultiplier := (sizeMultiplier.map Size.width).getD 1
  let heightMultiplier := (sizeMultiplier.map Size.height).getD 1
  if type = "decision" then ⟨widthMultiplier, heightMultiplier⟩
  else
    ⟨if type = "process" ∨ type = "startEnd" then
        1 + (widthMultiplier - 1) * 0.5
      else widthMultiplier,
     if type = "process" ∨ type = "startEnd" then
        1 + (heightMultiplier - 1) * 0.5
      else heightMultiplier⟩

/-- The rendered width/height of a `CustomNode`: `decision` uses base size
112 square; other types use `baseWidths[type] ?? 160` and
`baseHeights[type] ?? 64`, times the effective multipliers. -/
def customNodeSize (type : String) (sizeMultiplier : Option Size) : Size :=
  let m := customNodeEffectiveMultipliers type sizeMultiplier
  if type = "decision" then
    let baseSize : ℚ := 112
    ⟨baseSize * m.width, baseSize * m.height⟩
  else
    ⟨(baseWidths type).getD 160 * m.width, (baseHeights type).getD 64 * m.height⟩

/-! ### Binary64 rounding

The JavaScript engine evaluates the component's arithmetic in IEEE-754
binary64.  Every binary64 value in the ranges this component computes is
an exact rational `m * 2 ^ (e - 52)` with a 53-bit significand, so the
rounded arithmetic is modelled inside `ℚ`: `roundDouble` rounds an exact
rational to the nearest representable value (round half to even), and the
`fp` operations round after each exact operation, exactly as the engine
does.  Overflow and subnormals cannot occur at the magnitudes involved and
are not modelled. -/

/-- Round a positive rational to the nearest binary64 value (round half to
even): `Int.log 2 x` is the exponent of the leading binary digit, the
significand is scaled to 53 bits and rounded. -/
def roundPos (x : ℚ) : ℚ :=
  let e := Int.log 2 x
  let scaled := x * 2 ^ ((52 : ℤ) - e)
  let q := ⌊scaled⌋
  let fr := scaled - q
  let m : ℚ :=
    if fr < 1 / 2 then (q : ℚ)
    else if 1 / 2 < fr then (q : ℚ) + 1
    else if q % 2 = 0 then (q : ℚ) else (q : ℚ) + 1
  m * 2 ^ (e - 52)

/-- Round any rational to the nearest binary64 value. -/
def roundDouble (x : ℚ) : ℚ :=
  if x = 0 then 0
  else if 0 < x then roundPos x
  else -roundPos (-x)

/-- Binary64 addition: the exact sum, rounded. -/
def fpAdd (a b : ℚ) : ℚ := roundDouble (a + b)

/-- Binary64 multiplication: the exact product, rounded. -/
def fpMul (a b : ℚ) : ℚ := roundDouble (a * b)

/-- Binary64 division: the exact quotient, rounded. -/
def fpDiv (a b : ℚ) : ℚ := roundDouble (a / b)

/-- `totalWidth` as the engine computes it: the `reduce` loop with a
binary64 addition at each step. -/
def totalWidthFP (phases : List ProcessPhase) : ℚ :=
  phases.foldl (fun sum phase => fpAdd sum phase.width) 0

/-- `getPhaseWidthPercentage` as the engine computes it:
`(phase.width / totalWidth) * 100` with the division and the
multiplication each rounded. -/
def getPhaseWidthPercentageFP (phases : List ProcessPhase)
    (phase : ProcessPhase) : ℚ :=
  fpMul (fpDiv phase.width (totalWidthFP phases)) 100

/-- `phaseWidths` as the engine computes it: each product
`usableWidth * phaseWidthRatios.phaseN` rounded. -/
def phaseWidthsFP (w : ℚ) : Phase4 :=
  ⟨fpMul w phaseWidthRatios.phase1, fpMul w phaseWidthRatios.phase2,
   fpMul w phaseWidthRatios.phase3, fpMul w phaseWidthRatios.phase4⟩

/-! ### Sample inputs (concrete node lists used by witnesses and counterexamples) -/

/-- A node with the given id and type and no explicit width/height. -/
def mkNode (id type : String) : FlowNode :=
  ⟨id, type, none, none, ⟨0, 0⟩, "", "", ⟨none, []⟩, []⟩

/-- The six-node flowchart the layout algorithm is written for. -/
def cexNodes : List FlowNode :=
  [mkNode "req" "startEnd", mkNode "eval" "process", mkNode "prov" "process",
   mkNode "reeval" "process", mkNode "decide" "decision", mkNode "end" "startEnd"]

/-- The six-node flowchart plus a node whose id the layout does not know. -/
def extraNodes : List FlowNode := cexNodes ++ [mkNode "other" "process"]

/-- Three phases of equal relative width 1 (all binary64-exact inputs). -/
def threeEqualPhases : List ProcessPhase :=
  [⟨"p1", "Phase 1", 1, "c1"⟩, ⟨"p2", "Phase 2", 1, "c2"⟩, ⟨"p3", "Phase 3", 1, "c3"⟩]

/-- The binary64 value printed `992.1726629547653`: a viewport width whose
significand uses all 53 bits, so the products with the phase ratios
round. -/
def fullMantissaWidth : ℚ := 8727243037441941 / 2 ^ 43

/-! ## Helper lemmas -/

/-- `Int.log 2` is pinned by the two power bounds. -/
theorem intLog_eq {r : ℚ} {e : ℤ} (hr : 0 < r) (h1 : (2:ℚ) ^ e ≤ r)
    (h2 : r < (2:ℚ) ^ (e + 1)) : Int.log 2 r = e := by
  have hb : (1:ℕ) < 2 := one_lt_two
  have hcast : ((2:ℕ) : ℚ) = (2:ℚ) := by norm_num
  have hle : e ≤ Int.log 2 r := (Int.zpow_le_iff_le_log hb hr).1 (by rw [hcast]; exact h1)
  have hlt : Int.log 2 r < e + 1 := (Int.lt_zpow_iff_log_lt hb hr).1 (by rw [hcast]; exact h2)
  omega

/-- Evaluation rule for `roundDouble` on a positive rational, given the
leading-digit exponent `e` and the floor `q` of the 53-bit-scaled
significand. -/
theorem roundDouble_pos_eval (x : ℚ) (e q : ℤ) (hx : 0 < x)
    (h1 : (2:ℚ) ^ e ≤ x) (h2 : x < (2:ℚ) ^ (e + 1))
    (hq1 : (q : ℚ) ≤ x * 2 ^ ((52 : ℤ) - e)) (hq2 : x * 2 ^ ((52 : ℤ) - e) < (q : ℚ) + 1) :
    roundDouble x =
      (if x * 2 ^ ((52 : ℤ) - e) - (q : ℚ) < 1 / 2 then (q : ℚ)
       else if (1 : ℚ) / 2 < x * 2 ^ ((52 : ℤ) - e) - (q : ℚ) then (q : ℚ) + 1
       else if q % 2 = 0 then (q : ℚ) else (q : ℚ) + 1) * 2 ^ (e - 52) := by
  have he : Int.log 2 x = e := intLog_eq hx h1 h2
  have hq : ⌊x * (2:ℚ) ^ ((52 : ℤ) - e)⌋ = q := by
    rw [Int.floor_eq_iff]
    exact ⟨hq1, hq2⟩
  simp only [roundDouble, if_neg hx.ne', if_pos hx, roundPos, he, hq]

/-- Mapping preserves indexed lookup. -/
theorem map_getElem?_eq {α β : Type} (f : α → β) (l : List α) (i : ℕ) (x : α)
    (h : l[i]? = some x) : (l.map f)[i]? = some (f x) := by
  rw [List.getElem?_map, h]
  rfl

/-- When the five `nodeSizeMap` entries the layout reads are present, the
layout returns the mapped nodes, the unchanged edges and the phase
boundaries. -/
theorem layoutNodesManually_eq (nodes : List FlowNode) (edges : List FlowEdge)
    (w h : ℚ) (v : String) (reqS evalS reevalS decideS endS : Size)
    (hreq : nodeSizeMap (v == "workflow-list") nodes "req" = some reqS)
    (heval : nodeSizeMap (v == "workflow-list") nodes "eval" = some evalS)
    (hreeval : nodeSizeMap (v == "workflow-list") nodes "reeval" = some reevalS)
    (hdecide : nodeSizeMap (v == "workflow-list") nodes "decide" = some decideS)
    (hend : nodeSizeMap (v == "workflow-list") nodes "end" = some endS) :
    layoutNodesManually nodes edges w h v =
      some ⟨nodes.map (layoutedNode (v == "workflow-list")
              (positionsOf (v == "workflow-list") w reqS evalS reevalS decideS endS)
              (verticalOffsetOf h
                (maxBottomOf
                  (positionsOf (v == "workflow-list") w reqS evalS reevalS decideS endS)
                  (nodeSizeMap (v == "workflow-list") nodes)
                  (defaultNodeHeight (v == "workflow-list"))))),
            edges, phaseBoundariesOf w⟩ := by
  simp only [layoutNodesManually]
  rw [hreq, heval, hreeval, hdecide, hend]

/-- Conversely, a successful layout determines the five size entries and the
shape of the result. -/
theorem layoutNodesManually_some_elim {nodes : List FlowNode} {edges : List FlowEdge}
    {w h : ℚ} {v : String} {res : LayoutResult}
    (hres : layoutNodesManually nodes edges w h v = some res) :
    ∃ reqS evalS reevalS decideS endS,
      nodeSizeMap (v == "workflow-list") nodes "req" = some reqS ∧
      nodeSizeMap (v == "workflow-list") nodes "eval" = some evalS ∧
      nodeSizeMap (v == "workflow-list") nodes "reeval" = some reevalS ∧
      nodeSizeMap (v == "workflow-list") nodes "decide" = some decideS ∧
      nodeSizeMap (v == "workflow-list") nodes "end" = some endS ∧
      res = ⟨nodes.map (layoutedNode (v == "workflow-list")
              (positionsOf (v == "workflow-list") w reqS evalS reevalS decideS endS)
              (verticalOffsetOf h
                (maxBottomOf
                  (positionsOf (v == "workflow-list") w reqS evalS reevalS decideS endS)
                  (nodeSizeMap (v == "workflow-list") nodes)
                  (defaultNodeHeight (v == "workflow-list"))))),
            edges, phaseBoundariesOf w⟩ := by
  simp only [layoutNodesManually] at hres
  rcases hq : nodeSizeMap (v == "workflow-list") nodes "req" with _ | reqS <;> rw [hq] at hres
  · simp at hres
  rcases he : nodeSizeMap (v == "workflow-list") nodes "eval" with _ | evalS <;> rw [he] at hres
  · simp at hres
  rcases hr : nodeSizeMap (v == "workflow-list") nodes "reeval" with _ | reevalS <;> rw [hr] at hres
  · simp at hres
  rcases hd : nodeSizeMap (v == "workflow-list") nodes "decide" with _ | decideS <;> rw [hd] at hres
  · simp at hres
  rcases hn : nodeSizeMap (v == "workflow-list") nodes "end" with _ | endS <;> rw [hn] at hres
  · simp at hres
  exact ⟨reqS, evalS, reevalS, decideS, endS, rfl, rfl, rfl, rfl, rfl,
    (Option.some_injective _ hres.symm)⟩

/-- `nodeSizeMap` on the six default-size nodes (non-workflow view). -/
theorem cexNodes_sizeMap (k : String) (hk : k ∈ positionKeys) :
    nodeSizeMap false cexNodes k = some ⟨200, 80⟩ := by
  fin_cases hk <;>
    norm_num [nodeSizeMap, cexNodes, mkNode, layoutNodeMultiplier,
      defaultNodeWidth, defaultNodeHeight]

/-- `nodeSizeMap` on the six default-size nodes plus an unknown-id node
(non-workflow view). -/
theorem extraNodes_sizeMap (k : String) (hk : k ∈ positionKeys) :
    nodeSizeMap false extraNodes k = some ⟨200, 80⟩ := by
  fin_cases hk <;>
    norm_num [nodeSizeMap, extraNodes, cexNodes, mkNode, layoutNodeMultiplier,
      defaultNodeWidth, defaultNodeHeight]

/-- Evaluating the phase-initialisation fold of `itemsByPhase`. -/
theorem groupInit_apply (l : List ProcessPhase)
    (g : String → Option (List ProcessMapItem)) (p : String) :
    (l.foldl (fun g phase => fun k => if k = phase.id then some [] else g k) g) p =
      if p ∈ l.map (fun ph => ph.id) then some [] else g p := by
  induction l generalizing g with
  | nil => simp
  | cons ph l ih =>
    simp only [List.foldl_cons, ih, List.map_cons, List.mem_cons]
    by_cases h1 : p ∈ l.map (fun ph => ph.id) <;> by_cases h2 : p = ph.id <;> simp [h1, h2]

/-- Evaluating the item-push fold of `itemsByPhase`: items whose `phaseId`
is a known key are appended in order; others are dropped. -/
theorem groupPush_apply (l : List ProcessMapItem) (ids : List String)
    (g : String → Option (List ProcessMapItem)) (f : String → List ProcessMapItem)
    (hg : ∀ p, g p = if p ∈ ids then some (f p) else none) (p : String) :
    (l.foldl
      (fun g item =>
        match g item.phaseId with
        | some l2 => fun k => if k = item.phaseId then some (l2 ++ [item]) else g k
        | none => g)
      g) p =
    if p ∈ ids then some (f p ++ l.filter (fun it => it.phaseId == p)) else none := by
  induction l generalizing g f with
  | nil => simp [hg]
  | cons a l ih =>
    simp only [List.foldl_cons]
    by_cases ha : a.phaseId ∈ ids
    · rw [show (match g a.phaseId with
          | some l2 => fun k => if k = a.phaseId then some (l2 ++ [a]) else g k
          | none => g) =
          fun k => if k = a.phaseId then some (f a.phaseId ++ [a]) else g k from by
        rw [hg a.phaseId, if_pos ha]]
      rw [ih _ (fun q => if q = a.phaseId then f q ++ [a] else f q) ?hg2]
      case hg2 =>
        intro q
        by_cases hq : q = a.phaseId
        · subst hq; simp [ha]
        · simp [hq, hg q]
      by_cases hp : p ∈ ids
      · rw [if_pos hp, if_pos hp]
        by_cases hpa : p = a.phaseId
        · subst hpa
          simp [List.filter_cons, List.append_assoc]
        · have : (a.phaseId == p) = false := by
            rw [beq_eq_false_iff_ne]
            exact fun hcon => hpa hcon.symm
          simp [List.filter_cons, this, hpa]
      · simp [hp]
    · rw [show (match g a.phaseId with
          | some l2 => fun k => if k = a.phaseId then some (l2 ++ [a]) else g k
          | none => g) = g from by rw [hg a.phaseId, if_neg ha]]
      rw [ih g f hg]
      by_cases hp : p ∈ ids
      · rw [if_pos hp, if_pos hp]
        have hne : (a.phaseId == p) = false := by
          rw [beq_eq_false_iff_ne]
          intro hcon
          exact ha (hcon ▸ hp)
        simp [List.filter_cons, hne]
      · simp [hp]

/-- Closed form of `itemsByPhase` at any key. -/
theorem itemsByPhase_apply (phases : List ProcessPhase) (items : List ProcessMapItem)
    (st : String) (p : String) :
    itemsByPhase phases items st p =
      if p ∈ phases.map (fun ph => ph.id)
      then some ((filteredItems items st).filter (fun it => it.phaseId == p))
      else none := by
  unfold itemsByPhase
  rw [groupPush_apply _ (phases.map (fun ph => ph.id)) _ (fun _ => []) ?hg]
  case hg => intro q; rw [groupInit_apply]
  simp

/-- Membership in `filteredItems`. -/
theorem mem_filteredItems (items : List ProcessMapItem) (st : String)
    (it : ProcessMapItem) :
    it ∈ filteredItems items st ↔
      it ∈ items ∧ (st = "" ∨ matchesSearch st it = true) := by
  unfold filteredItems
  by_cases hst : st = ""
  · simp [hst]
  · simp [hst, List.mem_filter]

/-- `totalWidth` is the sum of the phase widths. -/
theorem totalWidth_eq (phases : List ProcessPhase) :
    totalWidth phases = (phases.map (fun ph => ph.width)).sum := by
  unfold totalWidth
  have key : ∀ (l : List ProcessPhase) (a : ℚ),
      l.foldl (fun sum phase => sum + phase.width) a =
        a + (l.map (fun ph => ph.width)).sum := by
    intro l
    induction l with
    | nil => simp
    | cons x l ih => intro a; simp [ih, add_assoc]
  simpa using key phases 0

/-! ## Claim theorems -/

/-- C1 (amended): for every viewport and node list on which the layout
succeeds, the clamps the code actually applies hold: the `req` node's x is
at least 0, the `eval` node's x is at least the start of phase 2, and the
`end` node's x plus its effective width is at most the viewport width.
(Full containment of every node in the viewport fails; see the
counterexample.) -/
theorem layout_clamped_positions (nodes : List FlowNode) (edges : List FlowEdge)
    (w h : ℚ) (v : String) (reqS evalS reevalS decideS endS : Size) (res : LayoutResult)
    (_hw : 0 < w) (_hh : 0 < h)
    (hreq : nodeSizeMap (v == "workflow-list") nodes "req" = some reqS)
    (heval : nodeSizeMap (v == "workflow-list") nodes "eval" = some evalS)
    (hreeval : nodeSizeMap (v == "workflow-list") nodes "reeval" = some reevalS)
    (hdecide : nodeSizeMap (v == "workflow-list") nodes "decide" = some decideS)
    (hend : nodeSizeMap (v == "workflow-list") nodes "end" = some endS)
    (hres : layoutNodesManually nodes edges w h v = some res) :
    ∀ (i : ℕ) (n n2 : FlowNode), nodes[i]? = some n → res.nodes[i]? = some n2 →
      ((n.id = "req" → 0 ≤ n2.position.x) ∧
       (n.id = "eval" → phase2StartOf w ≤ n2.position.x) ∧
       (n.id = "end" → n2.position.x + endS.width ≤ w)) := by
  obtain ⟨rq, ev, rv, dc, en, hrq, hev, hrv, hdc, hen, hres2⟩ :=
    layoutNodesManually_some_elim hres
  obtain rfl := Option.some.inj (hrq.symm.trans hreq)
  obtain rfl := Option.some.inj (hev.symm.trans heval)
  obtain rfl := Option.some.inj (hrv.symm.trans hreeval)
  obtain rfl := Option.some.inj (hdc.symm.trans hdecide)
  obtain rfl := Option.some.inj (hen.symm.trans hend)
  subst hres2
  intro i n n2 hn hn2
  obtain rfl := Option.some.inj ((map_getElem?_eq _ _ _ _ hn).symm.trans hn2)
  refine ⟨?_, ?_, ?_⟩ <;> intro hid
  · simp [layoutedNode, hid, positionsOf]
  · simp [layoutedNode, hid, positionsOf]
  · simp only [layoutedNode, hid, positionsOf]
    simp
    have hmin := min_le_right
      ((phase4StartOf w + ((phaseWidthsOf w).phase4 - en.width) / 2) *
        ((nodeMultipliers (v == "workflow-list") "end").getD 100) / 100)
      (w - en.width)
    linarith

/-- C1 witness: on the standard six nodes in a 100 x 10 viewport, the `req`
node's x coordinate is non-negative. -/
theorem layout_clamped_positions_witness :
    ∃ (res : LayoutResult) (n2 : FlowNode),
      layoutNodesManually cexNodes [] 100 10 "balanced" = some res ∧
      res.nodes[0]? = some n2 ∧ 0 ≤ n2.position.x := by
  have h1 := cexNodes_sizeMap "req" (by norm_num [positionKeys])
  have h2 := cexNodes_sizeMap "eval" (by norm_num [positionKeys])
  have h3 := cexNodes_sizeMap "reeval" (by norm_num [positionKeys])
  have h4 := cexNodes_sizeMap "decide" (by norm_num [positionKeys])
  have h5 := cexNodes_sizeMap "end" (by norm_num [positionKeys])
  have hlay := layoutNodesManually_eq cexNodes [] 100 10 "balanced"
    ⟨200, 80⟩ ⟨200, 80⟩ ⟨200, 80⟩ ⟨200, 80⟩ ⟨200, 80⟩ h1 h2 h3 h4 h5
  have hn : cexNodes[0]? = some (mkNode "req" "startEnd") := rfl
  have hn2 := map_getElem?_eq (layoutedNode ("balanced" == "workflow-list")
    (positionsOf ("balanced" == "workflow-list") 100
      ⟨200, 80⟩ ⟨200, 80⟩ ⟨200, 80⟩ ⟨200, 80⟩ ⟨200, 80⟩)
    (verticalOffsetOf 10
      (maxBottomOf
        (positionsOf ("balanced" == "workflow-list") 100
          ⟨200, 80⟩ ⟨200, 80⟩ ⟨200, 80⟩ ⟨200, 80⟩ ⟨200, 80⟩)
        (nodeSizeMap ("balanced" == "workflow-list") cexNodes)
        (defaultNodeHeight ("balanced" == "workflow-list"))))) cexNodes 0 _ hn
  obtain ⟨hreq2, -, -⟩ := layout_clamped_positions cexNodes [] 100 10 "balanced"
    ⟨200, 80⟩ ⟨200, 80⟩ ⟨200, 80⟩ ⟨200, 80⟩ ⟨200, 80⟩ _ (by norm_num) (by norm_num)
    h1 h2 h3 h4 h5 hlay 0 (mkNode "req" "startEnd") _ hn hn2
  exact ⟨_, _, hlay, hn2, hreq2 rfl⟩

/-- C1 counterexample: in a 100 x 10 viewport with the six default-size
nodes, the `prov` node is positioned at x = -100.905, which is outside the
viewport (its x is not ≥ 0), refuting the claim that every node position
lies inside the viewport. -/
theorem layout_inside_viewport_counterexample :
    ((layoutNodesManually cexNodes [] 100 10 "balanced").bind
        (fun r => r.nodes[2]?)).map (fun n => (n.id, n.position.x)) =
      some ("prov", (-100.905 : ℚ)) ∧ (-100.905 : ℚ) < 0 := by
  constructor
  · have hlay := layoutNodesManually_eq cexNodes [] 100 10 "balanced"
      ⟨200, 80⟩ ⟨200, 80⟩ ⟨200, 80⟩ ⟨200, 80⟩ ⟨200, 80⟩
      (cexNodes_sizeMap "req" (by norm_num [positionKeys]))
      (cexNodes_sizeMap "eval" (by norm_num [positionKeys]))
      (cexNodes_sizeMap "reeval" (by norm_num [positionKeys]))
      (cexNodes_sizeMap "decide" (by norm_num [positionKeys]))
      (cexNodes_sizeMap "end" (by norm_num [positionKeys]))
    rw [hlay]
    simp only [Option.bind_eq_bind, Option.some_bind, cexNodes, List.map_cons, List.map_nil]
    simp only [List.getElem?_cons_succ, List.getElem?_cons_zero, Option.map_some]
    simp [layoutedNode, mkNode, positionsOf, nodeMultipliers, phase3StartOf,
      phase2StartOf, phase1StartOf, phaseWidthsOf, phaseWidthRatios, squareSideOf,
      phaseSpacing]
    norm_num
  · norm_num

/-- C2 (amended): in `CustomNode` an absent `data.sizeMultiplier` always
yields effective multipliers 1; in `layoutNodesManually` the multiplier of
a node whose id is absent from the hardcoded table is 1 outside the
workflow-list view but 0.7 inside it. -/
theorem size_multiplier_defaults :
    (∀ type : String, customNodeEffectiveMultipliers type none = ⟨1, 1⟩) ∧
    (∀ id : String, layoutNodeMultiplier false id = ⟨1, 1⟩) ∧
    (∀ id : String, nodeSizeMultipliers id = none →
      layoutNodeMultiplier true id = ⟨0.7, 0.7⟩) := by
  refine ⟨?_, fun id => rfl, ?_⟩
  · intro type
    unfold customNodeEffectiveMultipliers
    split_ifs <;> norm_num [Size.mk.injEq]
  · intro id hid
    unfold layoutNodeMultiplier
    rw [hid]
    rfl

/-- C2 witness: a `decision` node with no multiplier renders with
multiplier 1; an unknown id gets multiplier 1 outside the workflow-list
view and 0.7 inside it. -/
theorem size_multiplier_defaults_witness :
    customNodeEffectiveMultipliers "decision" none = ⟨1, 1⟩ ∧
    layoutNodeMultiplier false "custom" = ⟨1, 1⟩ ∧
    layoutNodeMultiplier true "custom" = ⟨0.7, 0.7⟩ := by
  obtain ⟨h1, h2, h3⟩ := size_multiplier_defaults
  exact ⟨h1 "decision", h2 "custom", h3 "custom" rfl⟩

/-- C2 counterexample: in the workflow-list view, `layoutNodesManually`
gives the node with unknown id `other` (whose size multiplier is absent
from the table) the effective multiplier 0.7, not 1. -/
theorem layout_multiplier_counterexample :
    ((layoutNodesManually extraNodes [] 640 480 "workflow-list").bind
        (fun r => r.nodes[6]?)).map (fun n => n.data.sizeMultiplier) =
      some (some ⟨0.7, 0.7⟩) ∧ (⟨0.7, 0.7⟩ : Size) ≠ ⟨1, 1⟩ := by
  constructor
  · have h1 : nodeSizeMap ("workflow-list" == "workflow-list") extraNodes "req" =
        some ⟨112, 12⟩ := by
      simp [nodeSizeMap, extraNodes, cexNodes, mkNode, layoutNodeMultiplier,
        nodeSizeMultipliers, defaultNodeWidth, defaultNodeHeight]
      norm_num [Size.mk.injEq]
    have h2 : nodeSizeMap ("workflow-list" == "workflow-list") extraNodes "eval" =
        some ⟨112, 12⟩ := by
      simp [nodeSizeMap, extraNodes, cexNodes, mkNode, layoutNodeMultiplier,
        nodeSizeMultipliers, defaultNodeWidth, defaultNodeHeight]
      norm_num [Size.mk.injEq]
    have h3 : nodeSizeMap ("workflow-list" == "workflow-list") extraNodes "reeval" =
        some ⟨112, 12⟩ := by
      simp [nodeSizeMap, extraNodes, cexNodes, mkNode, layoutNodeMultiplier,
        nodeSizeMultipliers, defaultNodeWidth, defaultNodeHeight]
      norm_num [Size.mk.injEq]
    have h4 : nodeSizeMap ("workflow-list" == "workflow-list") extraNodes "decide" =
        some ⟨84, 18⟩ := by
      simp [nodeSizeMap, extraNodes, cexNodes, mkNode, layoutNodeMultiplier,
        nodeSizeMultipliers, defaultNodeWidth, defaultNodeHeight]
      norm_num [Size.mk.injEq]
    have h5 : nodeSizeMap ("workflow-list" == "workflow-list") extraNodes "end" =
        some ⟨112, 12⟩ := by
      simp [nodeSizeMap, extraNodes, cexNodes, mkNode, layoutNodeMultiplier,
        nodeSizeMultipliers, defaultNodeWidth, defaultNodeHeight]
      norm_num [Size.mk.injEq]
    have hlay := layoutNodesManually_eq extraNodes [] 640 480 "workflow-list"
      ⟨112, 12⟩ ⟨112, 12⟩ ⟨112, 12⟩ ⟨84, 18⟩ ⟨112, 12⟩ h1 h2 h3 h4 h5
    rw [hlay]
    simp [extraNodes, cexNodes, layoutedNode, mkNode, layoutNodeMultiplier,
      nodeSizeMultipliers]
  · simp only [ne_eq, Size.mk.injEq]
    norm_num

/-- C3: the grouping of items by phase has exactly the phase ids as keys;
each group is the ordered filter of the search-filtered items whose
`phaseId` is that key (so an empty phase maps to the empty list); and an
item belongs to some group exactly when its `phaseId` is a known phase id
and it passes the search filter. -/
theorem itemsByPhase_spec (phases : List ProcessPhase) (items : List ProcessMapItem)
    (st : String) :
    (∀ p, (itemsByPhase phases items st p).isSome = true ↔
        p ∈ phases.map (fun ph => ph.id)) ∧
    (∀ p, itemsByPhase phases items st p =
        if p ∈ phases.map (fun ph => ph.id)
        then some ((filteredItems items st).filter (fun it => it.phaseId == p))
        else none) ∧
    (∀ p it, (∃ l, itemsByPhase phases items st p = some l ∧ it ∈ l) ↔
        (p ∈ phases.map (fun ph => ph.id) ∧ it ∈ items ∧ it.phaseId = p ∧
          (st = "" ∨ matchesSearch st it = true))) := by
  refine ⟨?_, fun p => itemsByPhase_apply phases items st p, ?_⟩
  · intro p
    rw [itemsByPhase_apply]
    by_cases hp : p ∈ phases.map (fun ph => ph.id) <;> simp [hp]
  · intro p it
    rw [itemsByPhase_apply]
    by_cases hp : p ∈ phases.map (fun ph => ph.id)
    · simp only [if_pos hp, Option.some.injEq]
      constructor
      · rintro ⟨l, hl, hmem⟩
        subst hl
        rw [List.mem_filter] at hmem
        obtain ⟨hfi, hpid⟩ := hmem
        rw [beq_iff_eq] at hpid
        obtain ⟨hin, hpass⟩ := (mem_filteredItems items st it).1 hfi
        exact ⟨hp, hin, hpid, hpass⟩
      · rintro ⟨-, hin, hpid, hpass⟩
        refine ⟨_, rfl, ?_⟩
        rw [List.mem_filter, beq_iff_eq]
        exact ⟨(mem_filteredItems items st it).2 ⟨hin, hpass⟩, hpid⟩
    · simp [hp]

/-- C4: the layout's `positions` record holds entries only for the six
hardcoded ids, and every node with any other id is positioned at the
fallback (0, 0) shifted down by the vertical centering offset. -/
theorem layout_fallback_position (nodes : List FlowNode) (edges : List FlowEdge)
    (w h : ℚ) (v : String) (reqS evalS reevalS decideS endS : Size) (res : LayoutResult)
    (hreq : nodeSizeMap (v == "workflow-list") nodes "req" = some reqS)
    (heval : nodeSizeMap (v == "workflow-list") nodes "eval" = some evalS)
    (hreeval : nodeSizeMap (v == "workflow-list") nodes "reeval" = some reevalS)
    (hdecide : nodeSizeMap (v == "workflow-list") nodes "decide" = some decideS)
    (hend : nodeSizeMap (v == "workflow-list") nodes "end" = some endS)
    (hres : layoutNodesManually nodes edges w h v = some res) :
    (∀ k, k ∉ positionKeys →
      positionsOf (v == "workflow-list") w reqS evalS reevalS decideS endS k = none) ∧
    (∀ (i : ℕ) (n : FlowNode), nodes[i]? = some n → n.id ∉ positionKeys →
      ∃ n2 : FlowNode, res.nodes[i]? = some n2 ∧
        n2.position = ⟨0, 0 + verticalOffsetOf h
          (maxBottomOf (positionsOf (v == "workflow-list") w reqS evalS reevalS decideS endS)
            (nodeSizeMap (v == "workflow-list") nodes)
            (defaultNodeHeight (v == "workflow-list")))⟩) := by
  have hpos_none : ∀ k, k ∉ positionKeys →
      positionsOf (v == "workflow-list") w reqS evalS reevalS decideS endS k = none := by
    intro k hk
    simp only [positionKeys, List.mem_cons, List.not_mem_nil, or_false] at hk
    push_neg at hk
    obtain ⟨h1, h2, h3, h4, h5, h6⟩ := hk
    simp [positionsOf, h1, h2, h3, h4, h5, h6]
  obtain ⟨rq, ev, rv, dc, en, hrq, hev, hrv, hdc, hen, hres2⟩ :=
    layoutNodesManually_some_elim hres
  obtain rfl := Option.some.inj (hrq.symm.trans hreq)
  obtain rfl := Option.some.inj (hev.symm.trans heval)
  obtain rfl := Option.some.inj (hrv.symm.trans hreeval)
  obtain rfl := Option.some.inj (hdc.symm.trans hdecide)
  obtain rfl := Option.some.inj (hen.symm.trans hend)
  subst hres2
  refine ⟨hpos_none, ?_⟩
  intro i n hn hid
  refine ⟨_, map_getElem?_eq _ _ _ _ hn, ?_⟩
  have hnone := hpos_none n.id hid
  have hnd : (n.id == "decide") = false := by
    rw [beq_eq_false_iff_ne]
    intro hcon
    exact hid (by rw [hcon]; simp [positionKeys])
  simp [layoutedNode, hnone, hnd]

/-- C4 witness: the seventh node (id `other`) of the extended list ends up
at x = 0 (the fallback) in a 100 x 10 viewport. -/
theorem layout_fallback_position_witness :
    ∃ (res : LayoutResult) (n2 : FlowNode),
      layoutNodesManually extraNodes [] 100 10 "balanced" = some res ∧
      res.nodes[6]? = some n2 ∧ n2.position.x = 0 := by
  have h1 := extraNodes_sizeMap "req" (by norm_num [positionKeys])
  have h2 := extraNodes_sizeMap "eval" (by norm_num [positionKeys])
  have h3 := extraNodes_sizeMap "reeval" (by norm_num [positionKeys])
  have h4 := extraNodes_sizeMap "decide" (by norm_num [positionKeys])
  have h5 := extraNodes_sizeMap "end" (by norm_num [positionKeys])
  have hlay := layoutNodesManually_eq extraNodes [] 100 10 "balanced"
    ⟨200, 80⟩ ⟨200, 80⟩ ⟨200, 80⟩ ⟨200, 80⟩ ⟨200, 80⟩ h1 h2 h3 h4 h5
  obtain ⟨-, hfall⟩ := layout_fallback_position extraNodes [] 100 10 "balanced"
    ⟨200, 80⟩ ⟨200, 80⟩ ⟨200, 80⟩ ⟨200, 80⟩ ⟨200, 80⟩ _ h1 h2 h3 h4 h5 hlay
  obtain ⟨n2, hn2, hpos⟩ := hfall 6 (mkNode "other" "process") rfl (by decide)
  exact ⟨_, n2, hlay, hn2, by rw [hpos]⟩

/-- C5: `layoutNodesManually` is deterministic: equal node lists, edge
lists, viewport dimensions and expanded-view values give equal results
(the embedding is a pure function of exactly these five arguments, and its
result contains the argument edge list unchanged rather than a mutation of
it). -/
theorem layoutNodesManually_deterministic
    (n₁ n₂ : List FlowNode) (e₁ e₂ : List FlowEdge) (w₁ w₂ h₁ h₂ : ℚ) (v₁ v₂ : String)
    (hn : n₁ = n₂) (he : e₁ = e₂) (hw : w₁ = w₂) (hh : h₁ = h₂) (hv : v₁ = v₂) :
    layoutNodesManually n₁ e₁ w₁ h₁ v₁ = layoutNodesManually n₂ e₂ w₂ h₂ v₂ := by
  subst hn
  subst he
  subst hw
  subst hh
  subst hv
  rfl

/-- C5 witness: determinism at a concrete call. -/
theorem layoutNodesManually_deterministic_witness :
    layoutNodesManually cexNodes [] 100 10 "balanced" =
      layoutNodesManually cexNodes [] 100 10 "balanced" :=
  layoutNodesManually_deterministic cexNodes cexNodes [] [] 100 100 10 10
    "balanced" "balanced" rfl rfl rfl rfl rfl

/-- C6 (amended): computed in exact arithmetic, the per-phase width
percentages of a non-empty phase list with non-zero total sum to exactly
100.  The program's binary64 percentages need not: three phases of width 1
produce doubles summing to 99.99999999999999 (see the counterexample), so
exact-100 holds of the ideal arithmetic, not of the rounded program. -/
theorem getPhaseWidthPercentage_sum (phases : List ProcessPhase)
    (_hne : phases ≠ []) (hT : totalWidth phases ≠ 0) :
    (phases.map (fun ph => getPhaseWidthPercentage phases ph)).sum = 100 := by
  have key : ∀ (l : List ProcessPhase),
      (l.map (fun ph => getPhaseWidthPercentage phases ph)).sum =
        (l.map (fun ph => ph.width)).sum / totalWidth phases * 100 := by
    intro l
    induction l with
    | nil => simp
    | cons x l ih =>
      rw [List.map_cons, List.sum_cons, ih, List.map_cons, List.sum_cons]
      unfold getPhaseWidthPercentage
      ring
  rw [key phases, ← totalWidth_eq, div_self hT, one_mul]

/-- C6 witness: two phases of relative widths 1 and 3 yield percentages
summing to 100. -/
theorem getPhaseWidthPercentage_sum_witness :
    ([⟨"p1", "Phase 1", 1, "c1"⟩, ⟨"p2", "Phase 2", 3, "c2"⟩] : List ProcessPhase) ≠ [] ∧
    (([⟨"p1", "Phase 1", 1, "c1"⟩, ⟨"p2", "Phase 2", 3, "c2"⟩] : List ProcessPhase).map
      (fun ph => getPhaseWidthPercentage
        [⟨"p1", "Phase 1", 1, "c1"⟩, ⟨"p2", "Phase 2", 3, "c2"⟩] ph)).sum = 100 :=
  ⟨by simp, getPhaseWidthPercentage_sum _ (by simp) (by norm_num [totalWidth])⟩

/-- C6 counterexample: in binary64, three phases of width 1 give
percentages `(1/3)*100` = 33.33333333333333 each (the rounded double
4691249611844266 / 2^47), and their sum is 14073748835532798 / 2^47 =
99.99999999999999, not exactly 100 — the columns do not exactly fill the
row. -/
theorem getPhaseWidthPercentage_fp_counterexample :
    (threeEqualPhases.map
        (fun ph => getPhaseWidthPercentageFP threeEqualPhases ph)).sum =
      14073748835532798 / 2 ^ 47 ∧
    (14073748835532798 / 2 ^ 47 : ℚ) ≠ 100 := by
  have r1 : roundDouble 1 = 1 := by
    rw [roundDouble_pos_eval 1 0 4503599627370496 (by norm_num) (by norm_num)
      (by norm_num) (by norm_num) (by norm_num)]
    norm_num
  have r2 : roundDouble 2 = 2 := by
    rw [roundDouble_pos_eval 2 1 4503599627370496 (by norm_num) (by norm_num)
      (by norm_num) (by norm_num) (by norm_num)]
    norm_num
  have r3 : roundDouble 3 = 3 := by
    rw [roundDouble_pos_eval 3 1 6755399441055744 (by norm_num) (by norm_num)
      (by norm_num) (by norm_num) (by norm_num)]
    norm_num
  have htot : totalWidthFP threeEqualPhases = 3 := by
    simp only [totalWidthFP, threeEqualPhases, List.foldl_cons, List.foldl_nil,
      fpAdd, zero_add]
    rw [r1, show (1:ℚ) + 1 = 2 from by norm_num, r2,
      show (2:ℚ) + 1 = 3 from by norm_num, r3]
  have hdiv : fpDiv 1 3 = 6004799503160661 / 2 ^ 54 := by
    unfold fpDiv
    rw [roundDouble_pos_eval ((1:ℚ) / 3) (-2) 6004799503160661 (by norm_num) (by norm_num)
      (by norm_num) (by norm_num) (by norm_num)]
    norm_num
  have hmul : fpMul (6004799503160661 / 2 ^ 54) 100 = 4691249611844266 / 2 ^ 47 := by
    unfold fpMul
    rw [roundDouble_pos_eval ((6004799503160661 / 2 ^ 54 : ℚ) * 100) 5 4691249611844266
      (by norm_num) (by norm_num) (by norm_num) (by norm_num) (by norm_num)]
    norm_num
  constructor
  · simp only [getPhaseWidthPercentageFP, htot]
    simp only [threeEqualPhases, List.map_cons, List.map_nil, List.sum_cons, List.sum_nil]
    simp only [hdiv, hmul]
    norm_num
  · norm_num

/-- C7: clicking an item invokes `onItemClick` with that item and then
`onItemSelect` with that item's id; each callback fires exactly when it was
provided, and a missing callback simply contributes nothing. -/
theorem handleItemClick_spec (item : ProcessMapItem) :
    handleItemClick true true item =
        [CallbackCall.itemClick item, CallbackCall.itemSelect (some item.id)] ∧
    handleItemClick true false item = [CallbackCall.itemClick item] ∧
    handleItemClick false true item = [CallbackCall.itemSelect (some item.id)] ∧
    handleItemClick false false item = [] :=
  ⟨rfl, rfl, rfl, rfl⟩

/-- C8: a resize notification replaces (cancels) any pending timer with one
scheduled `debounceDelay` later; the stored dimensions change only when the
pending timer fires at its scheduled time and the halved-height dimensions
differ from the stored ones; and updating with identical dimensions returns
the previous state object unchanged. -/
theorem resize_debounce_spec (s : DebounceState) (e : ResizeEvent) (t : Nat) (w h : ℚ) :
    ((stepResize s (ResizeEvent.notify t w h)).timer = some (t + debounceDelay, w, h)) ∧
    ((stepResize s e).dims ≠ s.dims →
      ∃ tf w2 h2, e = ResizeEvent.fire tf ∧ s.timer = some (tf, w2, h2) ∧
        (stepResize s e).dims = ⟨w2, h2 / 2⟩ ∧
        (s.dims.width ≠ w2 ∨ s.dims.height ≠ h2 / 2)) ∧
    (∀ d : Dimensions, ∀ w2 h2 : ℚ, w2 = d.width → h2 / 2 = d.height →
      updateDimensions d w2 h2 = d) := by
  refine ⟨rfl, ?_, ?_⟩
  · intro hne
    cases e with
    | notify t2 w2 h2 => exact absurd rfl hne
    | fire t2 =>
      rcases htimer : s.timer with _ | ⟨tf, w2, h2⟩
      · rw [show stepResize s (ResizeEvent.fire t2) = s from by
          simp [stepResize, htimer]] at hne
        exact absurd rfl hne
      · by_cases ht : t2 = tf
        · subst ht
          have hstep : stepResize s (ResizeEvent.fire t2) =
              ⟨none, updateDimensions s.dims w2 h2⟩ := by
            simp [stepResize, htimer]
          rw [hstep] at hne ⊢
          dsimp only at hne ⊢
          simp only [updateDimensions] at hne ⊢
          split_ifs at hne ⊢ with hc
          · exact ⟨t2, w2, h2, rfl, htimer ▸ rfl, rfl, hc⟩
          · exact absurd rfl hne
        · rw [show stepResize s (ResizeEvent.fire t2) = s from by
            simp [stepResize, htimer, ht]] at hne
          exact absurd rfl hne
  · intro d w2 h2 hw2 hh2
    unfold updateDimensions
    rw [if_neg]
    push_neg
    exact ⟨hw2.symm, hh2.symm⟩

/-- C8 witness: a pending timer scheduled for time 500 carrying dimensions
3 x 4 fires and changes the stored dimensions from (0, 0) to (3, 2). -/
theorem resize_debounce_spec_witness :
    ∃ tf w2 h2, ResizeEvent.fire 500 = ResizeEvent.fire tf ∧
      (⟨some (500, 3, 4), ⟨0, 0⟩⟩ : DebounceState).timer = some (tf, w2, h2) ∧
      (stepResize ⟨some (500, 3, 4), ⟨0, 0⟩⟩ (ResizeEvent.fire 500)).dims = ⟨w2, h2 / 2⟩ ∧
      ((⟨some (500, 3, 4), ⟨0, 0⟩⟩ : DebounceState).dims.width ≠ w2 ∨
        (⟨some (500, 3, 4), ⟨0, 0⟩⟩ : DebounceState).dims.height ≠ h2 / 2) := by
  refine (resize_debounce_spec ⟨some (500, 3, 4), ⟨0, 0⟩⟩ (ResizeEvent.fire 500) 0 0 0).2.1 ?_
  norm_num [stepResize, updateDimensions, Dimensions.mk.injEq]

/-- C9 (amended): the hardcoded ratios are dyadic rationals summing to
exactly 1, the first boundary starts at 0 and each next one starts where
the previous ends, and computed in exact arithmetic the four widths sum to
the viewport width.  In the program's binary64 arithmetic the products
`w * ratio` round for a full-significand width, so the stored widths need
not sum exactly to the viewport width (see the counterexample); the exact
partition holds of the ideal arithmetic, not of the rounded program. -/
theorem phase_boundaries_partition (nodes : List FlowNode) (edges : List FlowEdge)
    (w h : ℚ) (v : String) (res : LayoutResult)
    (hres : layoutNodesManually nodes edges w h v = some res) :
    (phaseWidthRatios.phase1 + phaseWidthRatios.phase2 + phaseWidthRatios.phase3 +
      phaseWidthRatios.phase4 = 1) ∧
    ∃ b1 b2 b3 b4 : PhaseBoundary, res.phaseBoundaries = [b1, b2, b3, b4] ∧
      b1.start = 0 ∧ b2.start = b1.start + b1.width ∧ b3.start = b2.start + b2.width ∧
      b4.start = b3.start + b3.width ∧ b1.width + b2.width + b3.width + b4.width = w := by
  obtain ⟨rq, ev, rv, dc, en, -, -, -, -, -, hres2⟩ := layoutNodesManually_some_elim hres
  subst hres2
  refine ⟨by norm_num [phaseWidthRatios], _, _, _, _, rfl, rfl, rfl, rfl, rfl, ?_⟩
  show (phaseWidthsOf w).phase1 + (phaseWidthsOf w).phase2 + (phaseWidthsOf w).phase3 +
      (phaseWidthsOf w).phase4 = w
  simp only [phaseWidthsOf, phaseWidthRatios]
  ring_nf

/-- C9 witness: in a width-100 viewport the boundary widths sum to 100. -/
theorem phase_boundaries_partition_witness :
    ∃ res, layoutNodesManually cexNodes [] 100 10 "balanced" = some res ∧
      ∃ b1 b2 b3 b4 : PhaseBoundary, res.phaseBoundaries = [b1, b2, b3, b4] ∧
        b1.width + b2.width + b3.width + b4.width = 100 := by
  have hlay := layoutNodesManually_eq cexNodes [] 100 10 "balanced"
    ⟨200, 80⟩ ⟨200, 80⟩ ⟨200, 80⟩ ⟨200, 80⟩ ⟨200, 80⟩
    (cexNodes_sizeMap "req" (by norm_num [positionKeys]))
    (cexNodes_sizeMap "eval" (by norm_num [positionKeys]))
    (cexNodes_sizeMap "reeval" (by norm_num [positionKeys]))
    (cexNodes_sizeMap "decide" (by norm_num [positionKeys]))
    (cexNodes_sizeMap "end" (by norm_num [positionKeys]))
  obtain ⟨-, b1, b2, b3, b4, hlist, -, -, -, -, hsum⟩ :=
    phase_boundaries_partition cexNodes [] 100 10 "balanced" _ hlay
  exact ⟨_, hlay, b1, b2, b3, b4, hlist, hsum⟩

/-- C9 counterexample: at the binary64 viewport width printed
`992.1726629547653` (significand 8727243037441941, all 53 bits in use),
each product `w * ratio` rounds, and the four stored phase widths sum to
34908972149767763 / 2^45, one ulp short of `w` = 34908972149767764 / 2^45
— so in binary64 the widths do not sum exactly to the viewport width for
every width. -/
theorem phase_widths_fp_counterexample :
    (phaseWidthsFP fullMantissaWidth).phase1 + (phaseWidthsFP fullMantissaWidth).phase2 +
      (phaseWidthsFP fullMantissaWidth).phase3 + (phaseWidthsFP fullMantissaWidth).phase4 =
      34908972149767763 / 2 ^ 45 ∧
    (34908972149767763 / 2 ^ 45 : ℚ) ≠ fullMantissaWidth := by
  have h1 : fpMul fullMantissaWidth phaseWidthRatios.phase1 = 7636337657761698 / 2 ^ 45 := by
    simp only [fpMul, fullMantissaWidth, phaseWidthRatios]
    rw [roundDouble_pos_eval ((8727243037441941 / 2 ^ 43 : ℚ) * 0.21875) 7 7636337657761698
      (by norm_num) (by norm_num) (by norm_num) (by norm_num) (by norm_num)]
    norm_num
  have h2 : fpMul fullMantissaWidth phaseWidthRatios.phase2 = 8181790347601820 / 2 ^ 45 := by
    simp only [fpMul, fullMantissaWidth, phaseWidthRatios]
    rw [roundDouble_pos_eval ((8727243037441941 / 2 ^ 43 : ℚ) * 0.234375) 7 8181790347601819
      (by norm_num) (by norm_num) (by norm_num) (by norm_num) (by norm_num)]
    norm_num
  have h3 : fpMul fullMantissaWidth phaseWidthRatios.phase3 = 5999979588241334 / 2 ^ 44 := by
    simp only [fpMul, fullMantissaWidth, phaseWidthRatios]
    rw [roundDouble_pos_eval ((8727243037441941 / 2 ^ 43 : ℚ) * 0.34375) 8 5999979588241334
      (by norm_num) (by norm_num) (by norm_num) (by norm_num) (by norm_num)]
    norm_num
  have h4 : fpMul fullMantissaWidth phaseWidthRatios.phase4 = 7090884967921577 / 2 ^ 45 := by
    simp only [fpMul, fullMantissaWidth, phaseWidthRatios]
    rw [roundDouble_pos_eval ((8727243037441941 / 2 ^ 43 : ℚ) * 0.203125) 7 7090884967921577
      (by norm_num) (by norm_num) (by norm_num) (by norm_num) (by norm_num)]
    norm_num
  constructor
  · simp only [phaseWidthsFP, h1, h2, h3, h4]
    norm_num
  · simp only [fullMantissaWidth]
    norm_num

/-- C10: a successful layout returns its edges argument unchanged, keeps
the node count, and preserves every node field other than `position`,
`targetPosition`, `sourcePosition` and `data.sizeMultiplier` (in
particular id, type, raw width/height, remaining node properties and
remaining data properties). -/
theorem layoutNodesManually_frame (nodes : List FlowNode) (edges : List FlowEdge)
    (w h : ℚ) (v : String) (res : LayoutResult)
    (hres : layoutNodesManually nodes edges w h v = some res) :
    res.edges = edges ∧ res.nodes.length = nodes.length ∧
    ∀ (i : ℕ) (n : FlowNode), nodes[i]? = some n →
      ∃ n2 : FlowNode, res.nodes[i]? = some n2 ∧ n2.id = n.id ∧ n2.type = n.type ∧
        n2.width = n.width ∧ n2.height = n.height ∧ n2.rest = n.rest ∧
        n2.data.rest = n.data.rest := by
  obtain ⟨rq, ev, rv, dc, en, -, -, -, -, -, hres2⟩ := layoutNodesManually_some_elim hres
  subst hres2
  refine ⟨rfl, by simp, ?_⟩
  intro i n hn
  exact ⟨_, map_getElem?_eq _ _ _ _ hn, rfl, rfl, rfl, rfl, rfl, rfl⟩

/-- C10 witness: the concrete layout call returns the empty edge list
unchanged and as many nodes as it was given. -/
theorem layoutNodesManually_frame_witness :
    ∃ res, layoutNodesManually cexNodes [] 100 10 "balanced" = some res ∧
      res.edges = [] ∧ res.nodes.length = cexNodes.length := by
  have hlay := layoutNodesManually_eq cexNodes [] 100 10 "balanced"
    ⟨200, 80⟩ ⟨200, 80⟩ ⟨200, 80⟩ ⟨200, 80⟩ ⟨200, 80⟩
    (cexNodes_sizeMap "req" (by norm_num [positionKeys]))
    (cexNodes_sizeMap "eval" (by norm_num [positionKeys]))
    (cexNodes_sizeMap "reeval" (by norm_num [positionKeys]))
    (cexNodes_sizeMap "decide" (by norm_num [positionKeys]))
    (cexNodes_sizeMap "end" (by norm_num [positionKeys]))
  obtain ⟨he, hlen, -⟩ := layoutNodesManually_frame cexNodes [] 100 10 "balanced" _ hlay
  exact ⟨_, hlay, he, hlen⟩

end ProcessMap
